import Mathlib

/-!
Verification development for the Azure DevOps chat assistant's command-routing
subsystem.  The Python sources of the repository are shallowly embedded:

* `CommandParser` (src/services/chat/command_parser.py): the regex-dispatch
  pattern parser, its parameter extractors and its confidence score.
* `CommandLLMParser.parse` (same file): JSON decoding of the LLM reply with a
  `direct_response` fallback.
* `CommandValidator` (src/services/chat/command_validator.py): rule-based
  validation, sanitization and parameter validation.
* `AppController.process_message` (src/app_controller.py): the orchestrator's
  message-processing path.

Python `re` matching for the fixed pattern tables is embedded through a small
backtracking engine whose result list order mirrors the backtracking
preference order of the Python engine (leftmost start, alternation left
first, greedy quantifiers); only the constructs occurring in the repository's
patterns are represented.  Python `float` arithmetic on confidence values is
modelled by rational numbers, and `str.lower`/`str.strip` by their ASCII
fragments.
-/

/-! ## Python-style character and string helpers -/

/-- The whitespace class of Python's `str.strip` / `\s` (ASCII fragment). -/
def isPySpace (c : Char) : Bool :=
  c = ' ' || c = '\t' || c = '\n' || c = '\r' || c = '\x0b' || c = '\x0c'

/-- ASCII fragment of Python's `str.lower` on one character. -/
def pyCharLower (c : Char) : Char :=
  if 'A' ≤ c ∧ c ≤ 'Z' then Char.ofNat (c.toNat + 32) else c

/-- `str.lower` (ASCII fragment), on character lists. -/
def pyLowerL (l : List Char) : List Char := l.map pyCharLower

/-- Remove trailing Python whitespace (the `rstrip` half of `str.strip`). -/
def dropTrailWs (l : List Char) : List Char :=
  (l.reverse.dropWhile isPySpace).reverse

/-- Python's `str.strip()` on character lists. -/
def pyStripL (l : List Char) : List Char :=
  dropTrailWs (l.dropWhile isPySpace)

/-- `needle` occurs as a contiguous prefix of `hay`. -/
def startsWithL : List Char → List Char → Bool
  | [], _ => true
  | _ :: _, [] => false
  | n :: ns, h :: hs => n = h && startsWithL ns hs

/-- Python's substring test `needle in hay` on character lists. -/
def containsL (needle : List Char) : List Char → Bool
  | [] => startsWithL needle []
  | c :: rest => startsWithL needle (c :: rest) || containsL needle rest

/-- Digits of a decimal numeral to a natural number, Python `int` style. -/
def digitsToNat (l : List Char) : Nat :=
  l.foldl (fun acc c => acc * 10 + (c.toNat - '0'.toNat)) 0

/-! ## Python values (the `Any`-typed parameter values and JSON values) -/

/-- Embedded Python values: the payloads stored in `parameters` dictionaries
and the values produced by `json.loads`.  Python `float` literals are kept
symbolically (their binary64 semantics is outside the embedding). -/
inductive PyVal where
  | vnone
  | vbool (b : Bool)
  | vint (n : Int)
  | vfloat (lit : String)
  | vstr (s : String)
  | vlist (l : List PyVal)
  | vdict (d : List (String × PyVal))
deriving Repr

/-- Python dictionaries are embedded as association lists in insertion
order; a key occurs at most once. -/
abbrev PyDict := List (String × PyVal)

/-- `d.get(k)` / `d[k]`: first (unique) binding of `k`. -/
def pyGet (d : PyDict) (k : String) : Option PyVal :=
  match d with
  | [] => none
  | (k', v) :: rest => if k' = k then some v else pyGet rest k

/-- `k in d` for a Python dictionary. -/
def pyHasKey (d : PyDict) (k : String) : Bool := (pyGet d k).isSome

/-- `d[k] = v` on a Python dictionary: overwrite in place if the key exists,
append otherwise. -/
def pySet (d : PyDict) (k : String) (v : PyVal) : PyDict :=
  match d with
  | [] => [(k, v)]
  | (k', v') :: rest => if k' = k then (k, v) :: rest else (k', v') :: pySet rest k v

/-- `d.pop(k)` (key removal part; the popped value is read with `pyGet`). -/
def pyDel (d : PyDict) (k : String) : PyDict :=
  match d with
  | [] => []
  | (k', v') :: rest => if k' = k then rest else (k', v') :: pyDel rest k

/-- Python truthiness of the embedded values (`if x:`). -/
def pyTruthy : PyVal → Bool
  | .vnone => false
  | .vbool b => b
  | .vint n => n ≠ 0
  | .vfloat _ => true
  | .vstr s => s ≠ ""
  | .vlist l => !l.isEmpty
  | .vdict d => !d.isEmpty

/-- `isinstance(x, int)`: Python `bool` is a subtype of `int`. -/
def pyIsInstInt : PyVal → Bool
  | .vint _ => true
  | .vbool _ => true
  | _ => false

/-- The integer value of an `int`-instance (Python `True == 1`). -/
def pyIntVal : PyVal → Int
  | .vint n => n
  | .vbool b => if b then 1 else 0
  | _ => 0

/-! ## A backtracking regex engine for the repository's pattern tables

The engine covers exactly the constructs used by the Python sources:
literals, the classes `\d`, `\s`, `[^>]`, `.`, `[a-zA-Z\s]`, concatenation,
alternation, `?`, `+`, `*` and numbered capture groups.  `matchEnd r s`
returns, in backtracking preference order, the suffixes of `s` left over
after `r` has consumed a prefix, paired with the captures made. -/

/-- Single-character matchers appearing in the repository's patterns. -/
inductive RClass where
  | lit (c : Char)
  | digit
  | space
  | notGt
  | dot
  | letterOrSpace
deriving Repr

/-- Semantics of a single-character matcher. -/
def rclassMatch : RClass → Char → Bool
  | .lit c, c' => c = c'
  | .digit, c' => '0' ≤ c' && c' ≤ '9'
  | .space, c' => isPySpace c'
  | .notGt, c' => c' ≠ '>'
  | .dot, c' => c' ≠ '\n'
  | .letterOrSpace, c' => ('a' ≤ c' && c' ≤ 'z') || ('A' ≤ c' && c' ≤ 'Z') || isPySpace c'

/-- Regular expressions over the classes above, with numbered groups. -/
inductive Regex where
  | eps
  | cls (p : RClass)
  | cat (r1 r2 : Regex)
  | alt (r1 r2 : Regex)
  | star (r : Regex)
  | group (n : Nat) (r : Regex)
deriving Repr

/-- Captures: group number to captured text, most recent first. -/
abbrev Caps := List (Nat × List Char)

/-- Greedy Kleene iteration of the matcher `f`, at most `n` rounds, each
returning suffix-and-captures results in preference order; an iteration must
consume input (the Python engine's empty-match rule), so `s.length` rounds
subsume unbounded iteration.  The zero-iteration result comes last
(greediness). -/
def starMatch (f : List Char → List (List Char × Caps)) :
    Nat → List Char → List (List Char × Caps)
  | 0, s => [(s, [])]
  | n + 1, s =>
    (((f s).filter fun tc => tc.1.length < s.length).flatMap
      fun tc => (starMatch f n tc.1).map fun uc => (uc.1, uc.2 ++ tc.2))
    ++ [(s, [])]

/-- All ways `r` can consume a prefix of `s`, in Python backtracking
preference order: each result is the remaining suffix and the captures.
Alternation prefers the left branch, `star` is greedy. -/
def matchEnd : Regex → List Char → List (List Char × Caps)
  | .eps, s => [(s, [])]
  | .cls p, s =>
    match s with
    | [] => []
    | c :: rest => if rclassMatch p c then [(rest, [])] else []
  | .cat r1 r2, s =>
    (matchEnd r1 s).flatMap fun tc =>
      (matchEnd r2 tc.1).map fun uc => (uc.1, uc.2 ++ tc.2)
  | .alt r1 r2, s => matchEnd r1 s ++ matchEnd r2 s
  | .group n r, s =>
    (matchEnd r s).map fun tc =>
      (tc.1, (n, s.take (s.length - tc.1.length)) :: tc.2)
  | .star r, s => starMatch (matchEnd r) s.length s

/-- `re.search`: scan start positions left to right and return, at the first
position admitting a match, the consumed text (`match.group(0)`) and the
captures of the backtracking engine's first success. -/
def reSearch (r : Regex) (s : List Char) : Option (List Char × Caps) :=
  match matchEnd r s with
  | res :: _ => some (s.take (s.length - res.1.length), res.2)
  | [] =>
    match s with
    | [] => none
    | _ :: rest => reSearch r rest

/-! Pattern-building helpers used to transliterate the Python pattern
strings. -/

/-- A literal string as a regex. -/
def rstr (s : String) : Regex :=
  s.toList.foldr (fun c r => .cat (.cls (.lit c)) r) .eps

/-- `(?:a|b|...)`: alternation of a non-empty list, left preference. -/
def ralts : List Regex → Regex
  | [] => .eps
  | [r] => r
  | r :: rest => .alt r (ralts rest)

/-- Greedy `?`. -/
def ropt (r : Regex) : Regex := .alt r .eps

/-- Greedy `+`. -/
def rplus (r : Regex) : Regex := .cat r (.star r)

/-- `\s+` -/
def rws : Regex := rplus (.cls .space)

/-- `\s*` -/
def rwsOpt : Regex := .star (.cls .space)

/-- `\d+` -/
def rnum : Regex := rplus (.cls .digit)

/-- `.+` -/
def rdotPlus : Regex := rplus (.cls .dot)

/-- `xs?`: a literal followed by an optional `s`. -/
def rplural (s : String) : Regex := .cat (rstr s) (ropt (.cls (.lit 's')))

/-- Concatenation of a list of regexes. -/
def rcats : List Regex → Regex
  | [] => .eps
  | [r] => r
  | r :: rest => .cat r (rcats rest)

/-! ## CommandParser (src/services/chat/command_parser.py) -/

/-- The `CommandType` enumeration. -/
inductive CommandType where
  | listBoards
  | listWorkItems
  | getWorkItem
  | searchWorkItems
  | getBoard
  | help
  | unknown
deriving DecidableEq, Repr

/-- `ParsedCommand`: the dataclass produced by the pattern parser. -/
structure ParsedCommand where
  command_type : CommandType
  parameters : PyDict
  confidence : ℚ
  original_text : String
deriving Repr

namespace CommandParser

/-- `(?:#?(\d+)|(\d+))`: the work-item-id tail shared by the three
GET_WORK_ITEM patterns. -/
def ridTail : Regex :=
  .alt (.cat (ropt (.cls (.lit '#'))) (.group 1 rnum)) (.group 2 rnum)

/-- Patterns for `CommandType.LIST_BOARDS`, in source order. -/
def patListBoards : List Regex :=
  [ rcats [ralts [rstr "list", rstr "show", rstr "get", rstr "display"], rws,
      ropt (.cat (rstr "all") rws), ralts [rplural "board", rstr "kanban"]],
    rcats [ralts [rstr "quais", rstr "quais são", rstr "mostre", rstr "liste"], rws,
      ropt (.cat (rstr "os") rws), ralts [rplural "board", rplural "quadro"]],
    rcats [ralts [rplural "board", rplural "quadro"], rws,
      ralts [rstr "disponíveis", rstr "existentes"]] ]

/-- Patterns for `CommandType.LIST_WORK_ITEMS`, in source order. -/
def patListWorkItems : List Regex :=
  [ rcats [ralts [rstr "list", rstr "show", rstr "get", rstr "display"], rws,
      ropt (.cat (rstr "all") rws),
      ralts [rcats [rstr "work", rws, rplural "item"],
             rcats [rstr "backlog", rws, rplural "item"], rplural "task"]],
    rcats [ralts [rstr "list", rstr "show", rstr "get", rstr "display"], rws,
      ralts [rplural "bug", rplural "feature", rstr "pbi",
             rcats [rstr "product", rws, rstr "backlog", rws, rplural "item"]]],
    rcats [ralts [rstr "quais", rstr "quais são", rstr "mostre", rstr "liste",
             rstr "listar", rstr "exibir", rstr "exiba", rstr "mostrar", rstr "mostra",
             rstr "me mostre", rstr "me liste"], rws,
      ropt (.cat (rstr "os") rws),
      ralts [rplural "iten", rplural "tarefa", rplural "bug", rplural "feature",
             rcats [rstr "work", rwsOpt, rplural "item"],
             rcats [rstr "backlog", rwsOpt, rplural "item"]]],
    rcats [ralts [rstr "backlog", rplural "iten",
             rcats [rstr "work", rwsOpt, rplural "item"]], rws,
      ralts [rstr "disponíveis", rstr "existentes"]],
    rcats [ralts [rstr "mostrar", rstr "exibir", rstr "exiba", rstr "exibir",
             rstr "mostra", rstr "me mostre", rstr "me liste"], rws,
      ropt (.cat (rstr "os") rws),
      ralts [rcats [rstr "work", rwsOpt, rplural "item"], rplural "iten",
             rplural "tarefa"]] ]

/-- Patterns for `CommandType.GET_WORK_ITEM`, in source order. -/
def patGetWorkItem : List Regex :=
  [ rcats [ralts [rstr "get", rstr "show", rstr "display", rstr "view"], rws,
      ralts [rcats [rstr "work", rws, rstr "item"], rstr "item", rstr "task"], rws, ridTail],
    rcats [ralts [rstr "mostre", rstr "veja", rstr "exiba"], rws,
      ropt (.cat (rstr "o") rws), ralts [rstr "item", rstr "tarefa"], rws, ridTail],
    rcats [ralts [rstr "item", rstr "tarefa"], rws, ridTail] ]

/-- Patterns for `CommandType.SEARCH_WORK_ITEMS`, in source order. -/
def patSearchWorkItems : List Regex :=
  [ rcats [ralts [rstr "search", rstr "find", rcats [rstr "look", rws, rstr "for"]], rws,
      ralts [rcats [rstr "work", rws, rplural "item"], rplural "item", rplural "task"], rws,
      ralts [rstr "with", rstr "containing", rstr "about"], rws, .group 1 rdotPlus],
    rcats [ralts [rstr "busque", rstr "procure", rstr "encontre"], rws,
      ralts [rplural "iten", rplural "tarefa"], rws,
      ralts [rstr "com", rstr "sobre", rcats [rstr "relacionados", rws, rstr "a"]], rws,
      .group 1 rdotPlus],
    rcats [ralts [rstr "search", rstr "find"], rws, .group 1 rdotPlus] ]

/-- Patterns for `CommandType.GET_BOARD`, in source order. -/
def patGetBoard : List Regex :=
  [ rcats [ralts [rstr "get", rstr "show", rstr "display", rstr "view"], rws,
      ralts [rstr "board", rstr "kanban"], rws, .group 1 rdotPlus],
    rcats [ralts [rstr "mostre", rstr "veja", rstr "exiba"], rws,
      ropt (.cat (rstr "o") rws), ralts [rstr "board", rstr "quadro"], rws, .group 1 rdotPlus],
    rcats [ralts [rstr "board", rstr "quadro"], rws, .group 1 rdotPlus] ]

/-- Patterns for `CommandType.HELP`, in source order. -/
def patHelp : List Regex :=
  [ ralts [rstr "help", rstr "ajuda", rstr "socorro"],
    ralts [rcats [rstr "what", rws, rstr "can", rws, rstr "you", rws, rstr "do"],
           rcats [rstr "o", rws, rstr "que", rws, rstr "você", rws, rstr "pode", rws,
             rstr "fazer"]],
    ralts [rplural "command", rplural "comando"] ]

/-- `self.patterns`: the intent-to-pattern dispatch table, in the source's
insertion order (Python dictionaries iterate in insertion order). -/
def patterns : List (CommandType × List Regex) :=
  [ (.listBoards, patListBoards),
    (.listWorkItems, patListWorkItems),
    (.getWorkItem, patGetWorkItem),
    (.searchWorkItems, patSearchWorkItems),
    (.getBoard, patGetBoard),
    (.help, patHelp) ]

/-- Try the patterns of one intent in list order (`re.search` per pattern). -/
def findPat : List Regex → List Char → Option (List Char × Caps)
  | [], _ => none
  | p :: ps, text =>
    match reSearch p text with
    | some r => some r
    | none => findPat ps text

/-- Try intents in table order; the first pattern match wins. -/
def findMatch : List (CommandType × List Regex) → List Char →
    Option (CommandType × List Char × Caps)
  | [], _ => none
  | (ct, pats) :: rest, text =>
    match findPat pats text with
    | some (m, caps) => some (ct, m, caps)
    | none => findMatch rest text

/-- Captured text of group `n` (most recent capture wins, as in Python). -/
def capGet (caps : Caps) (n : Nat) : Option (List Char) :=
  (caps.find? fun c => c.1 = n).map fun c => c.2

def isDigitB (c : Char) : Bool := '0' ≤ c && c ≤ '9'

/-- First maximal digit run of the text: `re.findall(r'\d+', text)[0]`. -/
def firstNumberRun : List Char → Option (List Char)
  | [] => none
  | c :: rest =>
    if isDigitB c then some (c :: rest.takeWhile isDigitB) else firstNumberRun rest

/-- `_extract_work_item_id`: the first integer sequence in the text. -/
def extract_work_item_id (text : List Char) : PyDict :=
  match firstNumberRun text with
  | some run => [("work_item_id", .vint (digitsToNat run))]
  | none => []

/-- The keyword loop of `_extract_search_terms`: first listed keyword found
in the text; the suffix after its first occurrence is the search term. -/
def searchTermFallback (text : List Char) : List String → PyDict
  | [] => []
  | kw :: rest =>
    if containsL kw.toList text then
      match afterKw kw.toList text with
      | some tail => [("search_terms", .vstr (pyStripL tail).asString)]
      | none => searchTermFallback text rest
    else searchTermFallback text rest
where
  /-- Suffix after the first occurrence of the keyword (`text.split(kw, 1)[1]`). -/
  afterKw (needle : List Char) : List Char → Option (List Char)
    | [] => none
    | c :: r => if startsWithL needle (c :: r) then some (List.drop needle.length (c :: r))
        else afterKw needle r

/-- `_extract_search_terms`: group 1 of the match when the pattern captured
one (each SEARCH pattern has exactly one mandatory group, so
`match.groups()` is non-empty exactly when group 1 was captured), else the
keyword fallback. -/
def extract_search_terms (text : List Char) (caps : Caps) : PyDict :=
  match capGet caps 1 with
  | some g => [("search_terms", .vstr (pyStripL g).asString)]
  | none => searchTermFallback text ["search", "find", "busque", "procure", "encontre"]

/-- `_extract_board_name`. -/
def extract_board_name (caps : Caps) : PyDict :=
  match capGet caps 1 with
  | some g => [("board_name", .vstr (pyStripL g).asString)]
  | none => []

/-- The `assigned_to` pattern of `_extract_work_item_filters`:
`(?:assigned\s+to|atribuído\s+para)\s+([a-zA-Z\s]+)`. -/
def assignedPattern : Regex :=
  rcats [ralts [rcats [rstr "assigned", rws, rstr "to"],
                rcats [rstr "atribuído", rws, rstr "para"]], rws,
         .group 1 (rplus (.cls .letterOrSpace))]

/-- `_extract_work_item_filters`: keyword presence tests for type and state,
plus the `assigned_to` regex. -/
def extract_work_item_filters (text : List Char) : PyDict :=
  let d1 : PyDict :=
    if containsL "bug".toList text then [("types", .vlist [.vstr "Bug"])]
    else if containsL "feature".toList text then [("types", .vlist [.vstr "Feature"])]
    else if containsL "pbi".toList text
        || containsL "product backlog item".toList text then
      [("types", .vlist [.vstr "Product Backlog Item"])]
    else []
  let d2 : PyDict :=
    if containsL "new".toList text then pySet d1 "state" (.vstr "New")
    else if containsL "active".toList text then pySet d1 "state" (.vstr "Active")
    else if containsL "resolved".toList text then pySet d1 "state" (.vstr "Resolved")
    else if containsL "closed".toList text then pySet d1 "state" (.vstr "Closed")
    else if containsL "removed".toList text then pySet d1 "state" (.vstr "Removed")
    else d1
  match reSearch assignedPattern text with
  | some (_, caps) =>
    match capGet caps 1 with
    | some g => pySet d2 "assigned_to" (.vstr (pyStripL g).asString)
    | none => d2
  | none => d2

/-- `self.parameter_extractors` dispatch. -/
def extractParams (ct : CommandType) (text m : List Char) (caps : Caps) : PyDict :=
  match ct with
  | .getWorkItem => extract_work_item_id text
  | .searchWorkItems => extract_search_terms text caps
  | .getBoard => extract_board_name caps
  | .listWorkItems => extract_work_item_filters text
  | _ =>
    -- the match object is unused by the remaining intents
    let _ := m
    []

/-- The fixed keyword list of `_calculate_confidence`. -/
def specificKeywords : List String :=
  ["board", "work item", "bug", "feature", "search", "find"]

/-- `_calculate_confidence`: 0.5 base, +0.3 for a full-text match, +coverage
* 0.2, +0.1 per domain keyword present, capped at 1.0. -/
def calculate_confidence (text m : List Char) : ℚ :=
  let base : ℚ := 1/2
  let c1 := if pyLowerL m = pyLowerL text then base + 3/10 else base
  let c2 := if 0 < text.length
    then c1 + ((m.length : ℚ) / (text.length : ℚ)) * (2/10) else c1
  let c3 := specificKeywords.foldl
    (fun acc kw => if containsL kw.toList text then acc + 1/10 else acc) c2
  min c3 1

/-- `CommandParser.parse`: normalize (`strip().lower()`), try the table in
order, extract parameters and score; `UNKNOWN` with confidence 0.0 and empty
parameters when nothing matches. -/
def parse (input : String) : ParsedCommand :=
  let text := pyLowerL (pyStripL input.toList)
  match findMatch patterns text with
  | some (ct, m, caps) =>
    { command_type := ct
      parameters := extractParams ct text m caps
      confidence := calculate_confidence text m
      original_text := text.asString }
  | none =>
    { command_type := .unknown
      parameters := []
      confidence := 0
      original_text := text.asString }

end CommandParser

/-! ## `json.loads`, as used by CommandLLMParser

A fuel-indexed recursive-descent parser for the JSON accepted by Python's
`json.loads` (strict mode): objects, arrays, strings with escapes, numbers,
`true`/`false`/`null` and the `NaN`/`Infinity` constants.  Non-integer
numbers are kept as symbolic `vfloat` literals (binary64 rounding is outside
the embedding); `\uXXXX` escapes are decoded per code unit. -/

namespace PyJson

/-- JSON inter-token whitespace. -/
def isJsonWs (c : Char) : Bool := c = ' ' || c = '\t' || c = '\n' || c = '\r'

def skipWs (l : List Char) : List Char := l.dropWhile isJsonWs

/-- Value of one hex digit. -/
def hexVal (c : Char) : Option Nat :=
  if '0' ≤ c ∧ c ≤ '9' then some (c.toNat - '0'.toNat)
  else if 'a' ≤ c ∧ c ≤ 'f' then some (c.toNat - 'a'.toNat + 10)
  else if 'A' ≤ c ∧ c ≤ 'F' then some (c.toNat - 'A'.toNat + 10)
  else none

/-- Body of a JSON string after the opening quote: returns the decoded
characters and the input after the closing quote.  Raw control characters
are rejected (`strict=True`). -/
def parseStringBody : List Char → Option (List Char × List Char)
  | [] => none
  | '"' :: rest => some ([], rest)
  | '\\' :: rest =>
    match rest with
    | '"' :: r => (parseStringBody r).map fun p => ('"' :: p.1, p.2)
    | '\\' :: r => (parseStringBody r).map fun p => ('\\' :: p.1, p.2)
    | '/' :: r => (parseStringBody r).map fun p => ('/' :: p.1, p.2)
    | 'b' :: r => (parseStringBody r).map fun p => ('\x08' :: p.1, p.2)
    | 'f' :: r => (parseStringBody r).map fun p => ('\x0c' :: p.1, p.2)
    | 'n' :: r => (parseStringBody r).map fun p => ('\n' :: p.1, p.2)
    | 'r' :: r => (parseStringBody r).map fun p => ('\r' :: p.1, p.2)
    | 't' :: r => (parseStringBody r).map fun p => ('\t' :: p.1, p.2)
    | 'u' :: h1 :: h2 :: h3 :: h4 :: r =>
      match hexVal h1, hexVal h2, hexVal h3, hexVal h4 with
      | some a, some b, some c, some d =>
        (parseStringBody r).map fun p =>
          (Char.ofNat (((a * 16 + b) * 16 + c) * 16 + d) :: p.1, p.2)
      | _, _, _, _ => none
    | _ => none
  | c :: rest =>
    if c.toNat < 0x20 then none
    else (parseStringBody rest).map fun p => (c :: p.1, p.2)

/-- JSON number grammar `-?(0|[1-9][0-9]*)(\.[0-9]+)?([eE][+-]?[0-9]+)?`:
an integer becomes `vint`; a fraction or exponent keeps the literal text as
a symbolic `vfloat`. -/
def parseNumber (l : List Char) : Option (PyVal × List Char) :=
  let (neg, l1) := match l with
    | '-' :: r => (true, r)
    | _ => (false, l)
  match l1 with
  | [] => none
  | c :: _ =>
    if !isDigitNum c then none
    else
      let intPart := l1.takeWhile isDigitNum
      if intPart.length > 1 ∧ intPart.headD '0' = '0' then none
      else
        let l2 := l1.drop intPart.length
        let (frac, l3) := match l2 with
          | '.' :: r =>
            let ds := r.takeWhile isDigitNum
            if ds.isEmpty then ([], l2) else ('.' :: ds, r.drop ds.length)
          | _ => ([], l2)
        let fracOk : Bool := match l2 with
          | '.' :: r => !(r.takeWhile isDigitNum).isEmpty
          | _ => true
        let (expo, l4) := match l3 with
          | 'e' :: r => expTail 'e' r
          | 'E' :: r => expTail 'E' r
          | _ => ([], l3)
        let expOk : Bool := match l3 with
          | 'e' :: r => !(expTail 'e' r).1.isEmpty
          | 'E' :: r => !(expTail 'E' r).1.isEmpty
          | _ => true
        if !fracOk || !expOk then none
        else if frac.isEmpty ∧ expo.isEmpty then
          let n : Int := (digitsToNat intPart : Int)
          some (.vint (if neg then -n else n), l2)
        else
          let lit := (if neg then ['-'] else []) ++ intPart ++ frac ++ expo
          some (.vfloat lit.asString, l4)
where
  isDigitNum (c : Char) : Bool := '0' ≤ c && c ≤ '9'
  /-- Exponent tail: the marker with sign and digits, and the remainder. -/
  expTail (mark : Char) (r : List Char) : List Char × List Char :=
    let (sgn, r1) := match r with
      | '+' :: rr => (['+'], rr)
      | '-' :: rr => (['-'], rr)
      | _ => (([] : List Char), r)
    let ds := r1.takeWhile fun c => '0' ≤ c && c ≤ '9'
    if ds.isEmpty then ([], r) else (mark :: sgn ++ ds, r1.drop ds.length)

mutual

/-- One JSON value starting at the head of the input. -/
def parseValue : Nat → List Char → Option (PyVal × List Char)
  | 0, _ => none
  | fuel + 1, l =>
    match l with
    | '"' :: rest => (parseStringBody rest).map fun p => (.vstr p.1.asString, p.2)
    | '{' :: rest =>
      match skipWs rest with
      | '}' :: r => some (.vdict [], r)
      | l1 => parseMembers fuel l1 []
    | '[' :: rest =>
      match skipWs rest with
      | ']' :: r => some (.vlist [], r)
      | l1 => parseItems fuel l1 []
    | 't' :: 'r' :: 'u' :: 'e' :: r => some (.vbool true, r)
    | 'f' :: 'a' :: 'l' :: 's' :: 'e' :: r => some (.vbool false, r)
    | 'n' :: 'u' :: 'l' :: 'l' :: r => some (.vnone, r)
    | 'N' :: 'a' :: 'N' :: r => some (.vfloat "nan", r)
    | 'I' :: 'n' :: 'f' :: 'i' :: 'n' :: 'i' :: 't' :: 'y' :: r => some (.vfloat "inf", r)
    | '-' :: 'I' :: 'n' :: 'f' :: 'i' :: 'n' :: 'i' :: 't' :: 'y' :: r =>
      some (.vfloat "-inf", r)
    | _ => parseNumber l
termination_by structural fuel _ => fuel

/-- Object members after `{` (at least one); duplicate keys follow Python
semantics via `pySet` (last value, first position). -/
def parseMembers : Nat → List Char → PyDict → Option (PyVal × List Char)
  | 0, _, _ => none
  | fuel + 1, l, acc =>
    match l with
    | '"' :: rest =>
      match parseStringBody rest with
      | none => none
      | some (key, r1) =>
        match skipWs r1 with
        | ':' :: r2 =>
          match parseValue fuel (skipWs r2) with
          | none => none
          | some (v, r3) =>
            let acc' := pySet acc key.asString v
            match skipWs r3 with
            | ',' :: r4 => parseMembers fuel (skipWs r4) acc'
            | '}' :: r4 => some (.vdict acc', r4)
            | _ => none
        | _ => none
    | _ => none
termination_by structural fuel _ _ => fuel

/-- Array items after `[` (at least one). -/
def parseItems : Nat → List Char → List PyVal → Option (PyVal × List Char)
  | 0, _, _ => none
  | fuel + 1, l, acc =>
    match parseValue fuel l with
    | none => none
    | some (v, r1) =>
      match skipWs r1 with
      | ',' :: r2 => parseItems fuel (skipWs r2) (acc ++ [v])
      | ']' :: r2 => some (.vlist (acc ++ [v]), r2)
      | _ => none
termination_by structural fuel _ _ => fuel

end

/-- `json.loads`: a single JSON document with surrounding whitespace. -/
def jsonLoads (s : String) : Option PyVal :=
  match parseValue (s.length + 1) (skipWs s.toList) with
  | some (v, rest) => if skipWs rest = [] then some v else none
  | none => none

end PyJson

namespace CommandLLMParser

/-- `CommandLLMParser.parse`, as a function of the provider's response
content (`self.llm.generate(request).content`): decode the content as JSON;
on any decoding failure return `{"direct_response": content}`. -/
def parse (content : String) : PyVal :=
  match PyJson.jsonLoads content with
  | some v => v
  | none => .vdict [("direct_response", .vstr content)]

end CommandLLMParser

/-! ## CommandValidator (src/services/chat/command_validator.py) -/

/-- The `ValidationLevel` enumeration. -/
inductive ValidationLevel where
  | low
  | medium
  | high
deriving DecidableEq, Repr

/-- `ValidationResult`: the dataclass returned by `validate_command`. -/
structure ValidationResult where
  is_valid : Bool
  confidence : ℚ
  warnings : List String
  errors : List String
  sanitized_command : String
  validation_level : ValidationLevel
deriving Repr

namespace CommandValidator

/-- One intent's entry of `self.validation_rules`, with the defaults that
`rules.get(...)` substitutes for absent keys (the UNKNOWN intent has no
entry, hence all defaults).  Forbidden patterns carry their source text for
the error message. -/
structure Rules where
  min_length : Nat := 1
  max_length : Nat := 1000
  required_keywords : List String := []
  required_patterns : List Regex := []
  forbidden_patterns : List (String × Regex) := []

/-- The three forbidden patterns shared by every intent's rule entry. -/
def forbiddenCommon : List (String × Regex) :=
  [("<script>", rstr "<script>"),
   ("javascript:", rstr "javascript:"),
   ("data:text/html", rstr "data:text/html")]

/-- `self.validation_rules` joined with the `rules.get` defaults. -/
def getRules : CommandType → Rules
  | .listBoards =>
    { min_length := 3, max_length := 100
      required_keywords := ["board", "list", "show", "get", "display"]
      forbidden_patterns := forbiddenCommon }
  | .listWorkItems =>
    { min_length := 3, max_length := 200
      required_keywords := ["item", "work", "list", "show", "get", "display"]
      forbidden_patterns := forbiddenCommon }
  | .getWorkItem =>
    { min_length := 5, max_length := 50
      required_patterns := [rnum]
      forbidden_patterns := forbiddenCommon }
  | .searchWorkItems =>
    { min_length := 5, max_length := 300
      required_keywords := ["search", "find", "busque", "procure", "encontre"]
      forbidden_patterns :=
        forbiddenCommon ++ [("[<>]", .alt (.cls (.lit '<')) (.cls (.lit '>')))] }
  | .getBoard =>
    { min_length := 5, max_length := 100
      required_keywords := ["board", "get", "show", "display", "view"]
      forbidden_patterns := forbiddenCommon }
  | .help =>
    { min_length := 2, max_length := 20
      required_keywords := ["help", "ajuda", "socorro"]
      forbidden_patterns := forbiddenCommon }
  | .unknown => {}

/-- `len` of the values Python's validator applies `len` to. -/
def pyLen : PyVal → Nat
  | .vstr s => s.length
  | .vlist l => l.length
  | .vdict d => d.length
  | _ => 0

/-- `', '.join(keywords)` -/
def joinComma : List String → String
  | [] => ""
  | [k] => k
  | k :: rest => k ++ ", " ++ joinComma rest

/-! ### Sanitization (`_sanitize_command` and `self.sanitization_rules`) -/

/-- Index of the first `'>'`. -/
def firstGtIdx : List Char → Option Nat
  | [] => none
  | c :: rest => if c = '>' then some 0 else (firstGtIdx rest).map (· + 1)

/-- Case-insensitive literal prefix test (ASCII lowering). -/
def ciStarts : List Char → List Char → Bool
  | [], _ => true
  | _ :: _, [] => false
  | n :: ns, h :: hs => pyCharLower n = pyCharLower h && ciStarts ns hs

/-- Characters consumed up to and including the first case-insensitive
occurrence of `pat`. -/
def findCiEnd (pat : List Char) : List Char → Option Nat
  | [] => if ciStarts pat [] then some pat.length else none
  | c :: rest =>
    if ciStarts pat (c :: rest) then some pat.length
    else (findCiEnd pat rest).map (· + 1)

/-- Length of a match of `<name[^>]*>.*?</name>` (IGNORECASE, DOTALL)
anchored at the head of `s`: the literal open tag name, the greedy `[^>]*`
run up to the first `'>'`, then the lazy `.*?` up to the first closing
literal. -/
def matchTagBlockAt (name : List Char) (s : List Char) : Option Nat :=
  if ciStarts ('<' :: name) s then
    match firstGtIdx (s.drop (name.length + 1)) with
    | none => none
    | some i =>
      match findCiEnd ('<' :: '/' :: (name ++ ['>']))
          ((s.drop (name.length + 1)).drop (i + 1)) with
      | none => none
      | some j => some (name.length + 1 + (i + 1) + j)
  else none

theorem matchTagBlockAt_pos {name s : List Char} {n : Nat}
    (h : matchTagBlockAt name s = some n) : 1 ≤ n := by
  unfold matchTagBlockAt at h
  split at h
  · split at h
    · exact absurd h (by simp)
    · split at h
      · exact absurd h (by simp)
      · simp only [Option.some.injEq] at h
        omega
  · exact absurd h (by simp)

/-- `re.sub(r'<name[^>]*>.*?</name>', '', s, flags=IGNORECASE|DOTALL)`:
left-to-right scan removing non-overlapping tag blocks. -/
def removeTagBlocks (name : List Char) : List Char → List Char
  | [] => []
  | c :: rest =>
    match h : matchTagBlockAt name (c :: rest) with
    | some n => removeTagBlocks name (List.drop n (c :: rest))
    | none => c :: removeTagBlocks name rest
termination_by l => l.length
decreasing_by
  · have h1 := matchTagBlockAt_pos h
    simp only [List.length_drop, List.length_cons]
    omega
  · simp only [List.length_cons]
    omega

/-- Length of a match of `<[^>]+>` anchored at the head: `'<'`, at least one
non-`'>'` character, then the first `'>'`. -/
def matchHtmlAt : List Char → Option Nat
  | [] => none
  | c :: rest =>
    if c = '<' then
      match firstGtIdx rest with
      | some i => if 1 ≤ i then some (i + 2) else none
      | none => none
    else none

theorem matchHtmlAt_pos {s : List Char} {n : Nat} (h : matchHtmlAt s = some n) : 1 ≤ n := by
  unfold matchHtmlAt at h
  split at h
  · exact absurd h (by simp)
  · split at h
    · split at h
      · split at h
        · simp only [Option.some.injEq] at h
          omega
        · exact absurd h (by simp)
      · exact absurd h (by simp)
    · exact absurd h (by simp)

/-- `re.sub(r'<[^>]+>', '', s)`. -/
def removeHtml : List Char → List Char
  | [] => []
  | c :: rest =>
    match h : matchHtmlAt (c :: rest) with
    | some n => removeHtml (List.drop n (c :: rest))
    | none => c :: removeHtml rest
termination_by l => l.length
decreasing_by
  · have h1 := matchHtmlAt_pos h
    simp only [List.length_drop, List.length_cons]
    omega
  · simp only [List.length_cons]
    omega

/-- `re.sub(r'["""]', '"', s)`: the class of the source's
`normalize_quotes` rule holds only the ASCII double quote. -/
def quoteChar (c : Char) : Char := if c = '"' then '"' else c

/-- `re.sub(r'["""]', "'", s)`: the source's `normalize_apostrophes` class
also holds only the ASCII double quote, so every double quote becomes an
apostrophe. -/
def aposChar (c : Char) : Char := if c = '"' then '\'' else c

theorem dropWhileLenLe (p : Char → Bool) (l : List Char) :
    (l.dropWhile p).length ≤ l.length := by
  induction l with
  | nil => simp [List.dropWhile]
  | cons c rest ih =>
    simp only [List.dropWhile]
    split
    · exact Nat.le_succ_of_le ih
    · simp

/-- `re.sub(r'\s+', ' ', s)`: each maximal whitespace run becomes one
space. -/
def collapseWs : List Char → List Char
  | [] => []
  | c :: rest =>
    if isPySpace c then ' ' :: collapseWs (rest.dropWhile isPySpace)
    else c :: collapseWs rest
termination_by l => l.length
decreasing_by
  · have h1 := dropWhileLenLe isPySpace rest
    simp only [List.length_cons]
    omega
  · simp only [List.length_cons]
    omega

/-- `_sanitize_command` on character lists: scripts, styles, HTML tags,
quote normalization, apostrophe normalization, whitespace collapse, trim —
in the source's order. -/
def sanitizeL (l : List Char) : List Char :=
  pyStripL (collapseWs
    ((((removeHtml (removeTagBlocks "style".toList
        (removeTagBlocks "script".toList l))).map quoteChar).map aposChar)))

/-- `CommandValidator._sanitize_command`. -/
def sanitize_command (s : String) : String := (sanitizeL s.toList).asString

/-! ### validate_command -/

/-- The pre-threshold body of `validate_command`: the length, keyword,
required-pattern, forbidden-pattern and command-specific checks, producing
the accumulated errors, warnings and the penalty-adjusted confidence. -/
def checksCore (pc : ParsedCommand) : List String × List String × ℚ :=
  let r := getRules pc.command_type
  let textL := pc.original_text.toList
  let n := textL.length
  let s1 : List String × ℚ :=
    if n < r.min_length then
      (["Comando muito curto. Mínimo: " ++ toString r.min_length ++ " caracteres"],
       pc.confidence - 2/10)
    else ([], pc.confidence)
  let s2 : List String × ℚ :=
    if n > r.max_length then
      (s1.1 ++ ["Comando muito longo. Máximo: " ++ toString r.max_length ++ " caracteres"],
       s1.2 - 2/10)
    else s1
  let s3 : List String × ℚ :=
    if !r.required_keywords.isEmpty
        && r.required_keywords.all
          (fun kw => !containsL (pyLowerL kw.toList) (pyLowerL textL)) then
      (s2.1 ++ ["Comando deve conter pelo menos uma das palavras: "
          ++ joinComma r.required_keywords], s2.2 - 3/10)
    else s2
  let s4 : List String × ℚ :=
    if !r.required_patterns.isEmpty
        && r.required_patterns.all (fun p => (reSearch p textL).isNone) then
      (s3.1 ++ ["Comando não contém padrão obrigatório"], s3.2 - 3/10)
    else s3
  let s5 : List String × ℚ := r.forbidden_patterns.foldl
    (fun acc fp =>
      if (reSearch fp.2 (pyLowerL textL)).isSome then
        (acc.1 ++ ["Comando contém padrão proibido: " ++ fp.1], acc.2 - 5/10)
      else acc)
    s4
  match pc.command_type with
  | .getWorkItem =>
    let wid := (pyGet pc.parameters "work_item_id").getD .vnone
    if pyTruthy wid then
      if !pyIsInstInt wid || pyIntVal wid ≤ 0 then
        (s5.1 ++ ["ID do work item deve ser um número positivo"], [], s5.2 - 3/10)
      else if pyIntVal wid > 999999 then
        (s5.1, ["ID do work item parece ser muito alto"], s5.2)
      else (s5.1, [], s5.2)
    else (s5.1, [], s5.2)
  | .searchWorkItems =>
    let st := (pyGet pc.parameters "search_terms").getD (.vstr "")
    if pyLen st < 2 then
      (s5.1, ["Termo de busca muito curto, pode retornar muitos resultados"], s5.2)
    else if pyLen st > 100 then (s5.1, ["Termo de busca muito longo"], s5.2)
    else (s5.1, [], s5.2)
  | _ => (s5.1, [], s5.2)

/-- The confidence-threshold error appended after the core checks. -/
def thresholdErrors (lvl : ValidationLevel) (conf : ℚ) : List String :=
  match lvl with
  | .high => if conf < 7/10 then ["Confiança muito baixa para processamento seguro"] else []
  | .medium => if conf < 5/10 then ["Confiança baixa, verifique o comando"] else []
  | .low => []

/-- `CommandValidator.validate_command`. -/
def validate_command (pc : ParsedCommand)
    (lvl : ValidationLevel := .medium) : ValidationResult :=
  let ewc := checksCore pc
  let errs2 := ewc.1 ++ thresholdErrors lvl ewc.2.2
  { is_valid := errs2.isEmpty && decide ((3 : ℚ)/10 ≤ ewc.2.2)
    confidence := max 0 ewc.2.2
    warnings := ewc.2.1
    errors := errs2
    sanitized_command := sanitize_command pc.original_text
    validation_level := lvl }

/-- `CommandValidator.validate_parameters`. -/
def validate_parameters (ct : CommandType) (params : PyDict) : Bool × List String :=
  match ct with
  | .getWorkItem =>
    let wid := (pyGet params "work_item_id").getD .vnone
    let errs :=
      if !pyTruthy wid then ["ID do work item é obrigatório"]
      else if !pyIsInstInt wid then ["ID do work item deve ser um número"]
      else if pyIntVal wid ≤ 0 then ["ID do work item deve ser positivo"]
      else []
    (errs.isEmpty, errs)
  | .searchWorkItems =>
    let st := (pyGet params "search_terms").getD (.vstr "")
    let errs :=
      if !pyTruthy st then ["Termos de busca são obrigatórios"]
      else if pyLen st < 2 then ["Termos de busca devem ter pelo menos 2 caracteres"]
      else if pyLen st > 100 then ["Termos de busca muito longos"]
      else []
    (errs.isEmpty, errs)
  | .getBoard =>
    let bn := (pyGet params "board_name").getD (.vstr "")
    let errs :=
      if !pyTruthy bn then ["Nome do board é obrigatório"]
      else if pyLen bn < 2 then ["Nome do board deve ter pelo menos 2 caracteres"]
      else []
    (errs.isEmpty, errs)
  | _ => (true, [])

end CommandValidator

/-! ## AppController.process_message (src/app_controller.py)

The orchestrator is embedded as a pure function of: the LLM parser's output
for the message (a Python dictionary), the tracking-service collaborator
(response functions), the response-generation LLM call, the `repr`
serialization used inside the final prompt, and today's/yesterday's
`strftime('%Y-%m-%d')` strings.  It returns the response value together
with the trace of tracking-service calls made.  The pattern parser held in
`self.command_parser` is passed in as well, mirroring the controller's
state.  Work items and boards are opaque collaborator values
(`item.__dict__` dictionaries). -/

namespace AppController

/-- A call made to the tracking-service client. -/
inductive SvcCall where
  | searchAdvanced (filtros : PyDict)
  | getWorkItems (types : Option (List PyVal)) (state : PyVal) (assigned : PyVal) (top : PyVal)
  | getBoards
  | getWorkItemById (id : PyVal)
  | searchItems (term : PyVal)
deriving Repr

/-- The tracking-service collaborator's responses (out-of-scope REST
wrapper; only its interface matters here). -/
structure Service where
  search_work_items_advanced : PyDict → List PyVal
  get_work_items : Option (List PyVal) → PyVal → PyVal → PyVal → List PyVal
  get_boards : List PyVal
  get_work_item_by_id : PyVal → Option PyVal
  search_work_items : PyVal → List PyVal

/-- `func_name == '...'` comparisons. -/
def pyEqStr (v : PyVal) (s : String) : Bool :=
  match v with
  | .vstr t => t = s
  | _ => false

/-- The date-synonym renames applied to `params` before filtering:
`data_modificacao` → `modificado_em`, `data_criacao` → `criado_em`
(`params['x'] = params.pop('y')`). -/
def mapDateSynonyms (params : PyDict) : PyDict :=
  let p1 :=
    if pyHasKey params "data_modificacao" then
      pySet (pyDel params "data_modificacao") "modificado_em"
        ((pyGet params "data_modificacao").getD .vnone)
    else params
  if pyHasKey p1 "data_criacao" then
    pySet (pyDel p1 "data_criacao") "criado_em" ((pyGet p1 "data_criacao").getD .vnone)
  else p1

/-- `filtros_aceitos`. -/
def filtrosAceitos : List String :=
  ["titulo", "descricao", "prioridade", "criado_em", "modificado_em",
   "atribuido_para", "tipo"]

/-- `{k: v for k, v in params.items() if k in filtros_aceitos}`. -/
def filterAccepted (params : PyDict) : PyDict :=
  params.filter fun kv => filtrosAceitos.contains kv.1

/-- Relative-date rewriting for one key: a string value `'hoje'`/`'ontem'`
(case-insensitively) becomes today's/yesterday's date string. -/
def convertOneDate (d : PyDict) (k today yesterday : String) : PyDict :=
  match pyGet d k with
  | some (.vstr s) =>
    if pyLowerL s.toList = "hoje".toList then pySet d k (.vstr today)
    else if pyLowerL s.toList = "ontem".toList then pySet d k (.vstr yesterday)
    else d
  | _ => d

/-- The `for campo_data in ['criado_em', 'modificado_em']` loop. -/
def convertDates (filtros : PyDict) (today yesterday : String) : PyDict :=
  convertOneDate (convertOneDate filtros "criado_em" today yesterday)
    "modificado_em" today yesterday

/-- The fixed fallback reply of `process_message`. -/
def apologyMsg : String :=
  "Desculpe, não consegui entender sua solicitação. Tente reformular a pergunta."

/-- The prompt of the final response-generating LLM call; `ser` stands for
Python's `repr` of the result list inside the f-string. -/
def finalPrompt (ser : List PyVal → String) (message : String) (dados : List PyVal) :
    String :=
  "Pergunta do usuário: " ++ message ++ "\n\nDados retornados: " ++ ser dados
    ++ "\n\nGere uma resposta natural, clara e objetiva para o usuário, explicando o resultado."

/-- The function-dispatch block of `process_message`: from the function
name and parameters to the fetched data and the tracking-service calls
made.  Unrecognized function names silently produce an empty result list
and no call. -/
def runFunction (svc : Service) (funcName : PyVal) (params : PyDict)
    (today yesterday : String) : List PyVal × List SvcCall :=
  if pyEqStr funcName "listar_work_items" then
    let p1 := mapDateSynonyms params
    let filtros := convertDates (filterAccepted p1) today yesterday
    if !filtros.isEmpty then
      (svc.search_work_items_advanced filtros, [.searchAdvanced filtros])
    else
      let tipo := (pyGet p1 "tipo").getD .vnone
      let types := if pyTruthy tipo then some [tipo] else none
      let state := (pyGet p1 "estado").getD .vnone
      let assigned := (pyGet p1 "atribuido_para").getD .vnone
      let top := (pyGet p1 "limite").getD (.vint 100)
      (svc.get_work_items types state assigned top,
       [.getWorkItems types state assigned top])
  else if pyEqStr funcName "listar_boards" then
    (svc.get_boards, [.getBoards])
  else if pyEqStr funcName "buscar_work_item" then
    let p1 := mapDateSynonyms params
    let filtros := convertDates (filterAccepted p1) today yesterday
    if !filtros.isEmpty then
      (svc.search_work_items_advanced filtros, [.searchAdvanced filtros])
    else if pyHasKey p1 "id" then
      let wid := (pyGet p1 "id").getD .vnone
      (match svc.get_work_item_by_id wid with
        | some wi => [wi]
        | none => [],
       [.getWorkItemById wid])
    else if pyHasKey p1 "termo" then
      let t := (pyGet p1 "termo").getD .vnone
      (svc.search_work_items t, [.searchItems t])
    else if pyHasKey p1 "termo_busca" then
      let t := (pyGet p1 "termo_busca").getD .vnone
      (svc.search_work_items t, [.searchItems t])
    else if pyHasKey p1 "titulo" then
      let t := (pyGet p1 "titulo").getD .vnone
      (svc.search_work_items t, [.searchItems t])
    else ([], [])
  else if pyEqStr funcName "mostrar_work_item" then
    if pyHasKey params "id" then
      let wid := (pyGet params "id").getD .vnone
      (match svc.get_work_item_by_id wid with
        | some wi => [wi]
        | none => [],
       [.getWorkItemById wid])
    else if pyHasKey params "work_item_id" then
      let wid := (pyGet params "work_item_id").getD .vnone
      (match svc.get_work_item_by_id wid with
        | some wi => [wi]
        | none => [],
       [.getWorkItemById wid])
    else ([], [])
  else ([], [])

/-- `AppController.process_message` for one user message, given the LLM
parser's output `parsed`.  `patternParse` is the controller's
`self.command_parser.parse`; the body never consults it — there is no
pattern-parser fallback on this path.  A `parameters` value that is not a
JSON object is not modelled (Python would raise on it). -/
def process_message
    (patternParse : String → ParsedCommand)
    (svc : Service) (llmGen : String → String) (ser : List PyVal → String)
    (today yesterday : String)
    (message : String) (parsed : PyDict) : PyVal × List SvcCall :=
  let _ := patternParse
  if pyHasKey parsed "direct_response" then
    ((pyGet parsed "direct_response").getD .vnone, [])
  else if pyHasKey parsed "function" then
    let funcName := (pyGet parsed "function").getD .vnone
    let params :=
      match (pyGet parsed "parameters").getD (.vdict []) with
      | .vdict d => d
      | _ => []
    let (dados, calls) := runFunction svc funcName params today yesterday
    (.vstr (llmGen (finalPrompt ser message dados)), calls)
  else
    (.vstr apologyMsg, [])

end AppController

/-! ## Claims -/

/-- C6: `CommandParser.parse` applied to "Mostre o item #123", and likewise
to "item 123", yields a GET_WORK_ITEM command whose parameters carry
`work_item_id = 123` as an integer (the earlier intents of the table match
neither text, the GET_WORK_ITEM patterns do). -/
theorem c6_get_work_item_123 :
    (CommandParser.parse "Mostre o item #123").command_type = CommandType.getWorkItem
    ∧ pyGet (CommandParser.parse "Mostre o item #123").parameters "work_item_id"
        = some (.vint 123)
    ∧ (CommandParser.parse "item 123").command_type = CommandType.getWorkItem
    ∧ pyGet (CommandParser.parse "item 123").parameters "work_item_id"
        = some (.vint 123) :=
  ⟨rfl, rfl, rfl, rfl⟩

/-- C2 counterexample: `parse` lower-cases the text before storing it, so
`original_text` does not preserve the caller's casing. -/
theorem c2_original_text_counterexample :
    (CommandParser.parse "Mostre o item #123").original_text ≠ "Mostre o item #123" := by
  decide

/-- C2 (amended): for every input string, the stored `original_text` is the
trimmed and lower-cased input — the normalization applied for matching is
also what is stored, casing is not preserved. -/
theorem c2_original_text_normalized (s : String) :
    (CommandParser.parse s).original_text = (pyLowerL (pyStripL s.toList)).asString := by
  unfold CommandParser.parse
  dsimp only
  split <;> rfl

/-- C4: the LLM-driven parser decodes the vendor response
`{"function":"listar_boards","parameters":{}}` into a mapping whose
`function` key is `listar_boards`; and any response content that does not
decode as JSON becomes `{"direct_response": <content>}` (the decoder's
failure branch — nothing is raised, the function is total). -/
theorem c4_llm_parse_contract :
    CommandLLMParser.parse "\x7b\"function\":\"listar_boards\",\"parameters\":\x7b\x7d\x7d"
      = .vdict [("function", .vstr "listar_boards"), ("parameters", .vdict [])]
    ∧ ∀ content : String, (PyJson.jsonLoads content).isNone = true →
        CommandLLMParser.parse content = .vdict [("direct_response", .vstr content)] := by
  constructor
  · rfl
  · intro content h
    have h' : PyJson.jsonLoads content = none := by
      cases hj : PyJson.jsonLoads content with
      | none => rfl
      | some v => rw [hj] at h; simp at h
    unfold CommandLLMParser.parse
    rw [h']

/-- C4 witness: the concrete non-JSON content "nope" takes the
`direct_response` branch. -/
theorem c4_llm_parse_contract_witness :
    (PyJson.jsonLoads "nope").isNone = true
    ∧ CommandLLMParser.parse "nope" = .vdict [("direct_response", .vstr "nope")] :=
  ⟨by decide, c4_llm_parse_contract.2 "nope" (by decide)⟩

/-- C8: for the LLM parse result `{"function": "listar_work_items",
"parameters": {"tipo": "Bug", "modificado_em": "hoje"}}` (the parse of
"Quais bugs foram modificados hoje?"), `process_message` rewrites the value
`hoje` to today's `%Y-%m-%d` date string (`today`) and the one
tracking-service call made is `search_work_items_advanced` with a filter
mapping carrying that date under `modificado_em` and `Bug` under `tipo`. -/
theorem c8_hoje_rewritten_to_today (pp : String → ParsedCommand)
    (svc : AppController.Service) (gen : String → String) (ser : List PyVal → String)
    (today yesterday msg : String) :
    (AppController.process_message pp svc gen ser today yesterday msg
        [("function", .vstr "listar_work_items"),
         ("parameters", .vdict [("tipo", .vstr "Bug"), ("modificado_em", .vstr "hoje")])]).2
      = [.searchAdvanced [("tipo", .vstr "Bug"), ("modificado_em", .vstr today)]]
    ∧ pyGet [("tipo", PyVal.vstr "Bug"), ("modificado_em", PyVal.vstr today)] "tipo"
        = some (.vstr "Bug")
    ∧ pyGet [("tipo", PyVal.vstr "Bug"), ("modificado_em", PyVal.vstr today)] "modificado_em"
        = some (.vstr today) :=
  ⟨rfl, rfl, rfl⟩

/-- A trivial concrete tracking-service collaborator, for closed instances. -/
def svcNull : AppController.Service :=
  { search_work_items_advanced := fun _ => []
    get_work_items := fun _ _ _ _ => []
    get_boards := []
    get_work_item_by_id := fun _ => none
    search_work_items := fun _ => [] }

/-- C1 counterexample: an LLM parse result with neither `direct_response`
nor a `function` key makes `process_message` return the fixed apology
string with no tracking-service call — the pattern parser is not consulted
and no pattern-parsed command is executed. -/
theorem c1_counterexample :
    AppController.process_message (fun _ => CommandParser.parse "boards") svcNull id
        (fun _ => "") "2024-01-02" "2024-01-01" "hi" [("foo", .vnone)]
      = (.vstr AppController.apologyMsg, []) := rfl

/-- C1 (amended): `process_message` never consults the pattern parser — its
result is the same for any two pattern parsers — and when the LLM parse
result carries neither `direct_response` nor `function`, it returns the
fixed apology string having made no tracking-service call, instead of
falling back to the pattern parser. -/
theorem c1_no_pattern_fallback (pp1 pp2 : String → ParsedCommand)
    (svc : AppController.Service) (gen : String → String) (ser : List PyVal → String)
    (today yesterday msg : String) (parsed : PyDict)
    (hd : pyHasKey parsed "direct_response" = false)
    (hf : pyHasKey parsed "function" = false) :
    AppController.process_message pp1 svc gen ser today yesterday msg parsed
        = AppController.process_message pp2 svc gen ser today yesterday msg parsed
    ∧ AppController.process_message pp1 svc gen ser today yesterday msg parsed
        = (.vstr AppController.apologyMsg, []) := by
  refine ⟨rfl, ?_⟩
  unfold AppController.process_message
  simp only [hd, hf, Bool.false_eq_true, if_false]

/-- C1 witness: the amended statement at the counterexample's input. -/
theorem c1_no_pattern_fallback_witness :
    pyHasKey [("foo", PyVal.vnone)] "direct_response" = false
    ∧ pyHasKey [("foo", PyVal.vnone)] "function" = false
    ∧ AppController.process_message (fun _ => CommandParser.parse "boards") svcNull id
        (fun _ => "") "2024-01-02" "2024-01-01" "hi" [("foo", .vnone)]
      = (.vstr AppController.apologyMsg, []) :=
  ⟨by decide, by decide,
    (c1_no_pattern_fallback (fun _ => CommandParser.parse "boards")
      (fun _ => CommandParser.parse "items") svcNull id (fun _ => "")
      "2024-01-02" "2024-01-01" "hi" [("foo", .vnone)] (by decide) (by decide)).2⟩

/-- C9: a GET_WORK_ITEM command whose parameters carry `work_item_id = -5`
always validates to `is_valid = False` with a non-empty error list: the
positive-integer-id rule fires (its error is appended to whatever errors
came before), and any error makes `is_valid` false. -/
theorem c9_negative_id_invalid (pc : ParsedCommand) (lvl : ValidationLevel)
    (hty : pc.command_type = CommandType.getWorkItem)
    (hid : pyGet pc.parameters "work_item_id" = some (.vint (-5))) :
    (CommandValidator.validate_command pc lvl).is_valid = false
    ∧ (CommandValidator.validate_command pc lvl).errors ≠ [] := by
  obtain ⟨e, c, hcc⟩ : ∃ e c, CommandValidator.checksCore pc
      = (e ++ ["ID do work item deve ser um número positivo"], [], c) := by
    unfold CommandValidator.checksCore
    simp only [hty, hid]
    norm_num [pyTruthy, pyIsInstInt, pyIntVal, Option.getD]
  unfold CommandValidator.validate_command
  rw [hcc]
  constructor
  · simp
  · simp

/-- A concrete GET_WORK_ITEM command with a negative id. -/
def pcNegId : ParsedCommand :=
  { command_type := .getWorkItem
    parameters := [("work_item_id", .vint (-5))]
    confidence := 8/10
    original_text := "mostre o item -5" }

/-- C9 witness at a concrete command. -/
theorem c9_negative_id_invalid_witness :
    pcNegId.command_type = CommandType.getWorkItem
    ∧ pyGet pcNegId.parameters "work_item_id" = some (.vint (-5))
    ∧ (CommandValidator.validate_command pcNegId .medium).is_valid = false
    ∧ (CommandValidator.validate_command pcNegId .medium).errors ≠ [] := by
  have h := c9_negative_id_invalid pcNegId .medium rfl rfl
  exact ⟨rfl, rfl, h.1, h.2⟩

/-- C10: in `validate_command`, a GET_WORK_ITEM command with
`work_item_id = 0` is treated exactly like one with no id at all — the
positive-id check is guarded by truthiness and `0` is falsy, so no error
and no confidence penalty are recorded; `validate_parameters`, by
contrast, rejects id `0` (with the mandatory-id error). -/
theorem c10_zero_id_skipped (pc : ParsedCommand) (lvl : ValidationLevel)
    (hty : pc.command_type = CommandType.getWorkItem)
    (hid : pyGet pc.parameters "work_item_id" = some (.vint 0)) :
    (∀ d' : PyDict, pyGet d' "work_item_id" = none →
      CommandValidator.validate_command pc lvl
        = CommandValidator.validate_command { pc with parameters := d' } lvl)
    ∧ (CommandValidator.validate_parameters .getWorkItem pc.parameters).1 = false
    ∧ (CommandValidator.validate_parameters .getWorkItem pc.parameters).2
        = ["ID do work item é obrigatório"] := by
  refine ⟨?_, ?_, ?_⟩
  · intro d' hd'
    have hcc : CommandValidator.checksCore pc
        = CommandValidator.checksCore { pc with parameters := d' } := by
      unfold CommandValidator.checksCore
      simp only [hty, hid, hd']
      norm_num [pyTruthy, Option.getD]
    unfold CommandValidator.validate_command
    rw [hcc]
  · unfold CommandValidator.validate_parameters
    simp [hid, pyTruthy, Option.getD]
  · unfold CommandValidator.validate_parameters
    simp [hid, pyTruthy, Option.getD]

/-- A concrete GET_WORK_ITEM command with id `0`. -/
def pcZeroId : ParsedCommand :=
  { command_type := .getWorkItem
    parameters := [("work_item_id", .vint 0)]
    confidence := 8/10
    original_text := "mostre o item 0" }

/-- C10 witness at a concrete command, with the empty dictionary standing
for "work_item_id absent". -/
theorem c10_zero_id_skipped_witness :
    pcZeroId.command_type = CommandType.getWorkItem
    ∧ pyGet pcZeroId.parameters "work_item_id" = some (.vint 0)
    ∧ CommandValidator.validate_command pcZeroId .medium
        = CommandValidator.validate_command { pcZeroId with parameters := [] } .medium
    ∧ (CommandValidator.validate_parameters .getWorkItem pcZeroId.parameters).1 = false := by
  have h := c10_zero_id_skipped pcZeroId .medium rfl rfl
  exact ⟨rfl, rfl, h.1 [] rfl, h.2.1⟩

/-- The keyword-boost fold of `_calculate_confidence` never decreases the
accumulator. -/
theorem foldlKw_le (kws : List String) (text : List Char) (x : ℚ) :
    x ≤ kws.foldl (fun acc kw => if containsL kw.toList text then acc + 1/10 else acc) x := by
  induction kws generalizing x with
  | nil => simp
  | cons k rest ih =>
    simp only [List.foldl_cons]
    refine le_trans ?_ (ih _)
    split
    · linarith
    · exact le_refl x

/-- `_calculate_confidence` stays within `[0, 1]`: it starts at `0.5`, adds
only non-negative boosts, and is clamped at `1.0`. -/
theorem calculate_confidence_bounds (text m : List Char) :
    0 ≤ CommandParser.calculate_confidence text m
    ∧ CommandParser.calculate_confidence text m ≤ 1 := by
  unfold CommandParser.calculate_confidence
  dsimp only
  constructor
  · refine le_min ?_ (by norm_num)
    refine le_trans ?_ (foldlKw_le CommandParser.specificKeywords text _)
    split_ifs <;> positivity
  · exact min_le_right _ _

/-- If `re.search` fails for every pattern of an intent, `findPat` yields
nothing. -/
theorem findPat_none (pats : List Regex) (text : List Char)
    (h : ∀ p ∈ pats, reSearch p text = none) :
    CommandParser.findPat pats text = none := by
  induction pats with
  | nil => rfl
  | cons p ps ih =>
    unfold CommandParser.findPat
    rw [h p (List.mem_cons_self p ps)]
    exact ih fun q hq => h q (List.mem_cons_of_mem p hq)

/-- If `re.search` fails for every pattern of every intent, `findMatch`
yields nothing. -/
theorem findMatch_none (table : List (CommandType × List Regex)) (text : List Char)
    (h : ∀ ctp ∈ table, ∀ p ∈ ctp.2, reSearch p text = none) :
    CommandParser.findMatch table text = none := by
  induction table with
  | nil => rfl
  | cons ctp rest ih =>
    obtain ⟨ct, pats⟩ := ctp
    unfold CommandParser.findMatch
    rw [findPat_none pats text (h (ct, pats) (List.mem_cons_self _ rest))]
    exact ih fun q hq => h q (List.mem_cons_of_mem _ hq)

/-- C3: `CommandParser.parse` is total (a Lean function; the embedding has
no failure path), its confidence always lies in `[0, 1]`, and when no
pattern of any intent matches the normalized text the result is `UNKNOWN`
with confidence `0.0` and empty parameters. -/
theorem c3_parse_total_bounds (s : String) :
    (0 ≤ (CommandParser.parse s).confidence ∧ (CommandParser.parse s).confidence ≤ 1)
    ∧ ((CommandParser.patterns.all fun ctp => ctp.2.all fun p =>
          (reSearch p (pyLowerL (pyStripL s.toList))).isNone) = true →
        CommandParser.parse s
          = { command_type := .unknown, parameters := [], confidence := 0,
              original_text := (pyLowerL (pyStripL s.toList)).asString }) := by
  constructor
  · unfold CommandParser.parse
    dsimp only
    cases hfm : CommandParser.findMatch CommandParser.patterns (pyLowerL (pyStripL s.toList)) with
    | none => exact ⟨le_refl 0, by norm_num⟩
    | some r =>
      obtain ⟨ct, m, caps⟩ := r
      exact calculate_confidence_bounds _ m
  · intro hall
    have hnone : CommandParser.findMatch CommandParser.patterns
        (pyLowerL (pyStripL s.toList)) = none := by
      apply findMatch_none
      intro ctp hctp p hp
      rw [List.all_eq_true] at hall
      have h2 := hall ctp hctp
      rw [List.all_eq_true] at h2
      have h3 := h2 p hp
      simpa [Option.isNone_iff_eq_none] using h3
    unfold CommandParser.parse
    dsimp only
    rw [hnone]

/-- C3 witness: "zzz" matches no pattern, so parsing degrades to UNKNOWN
with confidence `0.0` and no parameters. -/
theorem c3_parse_total_bounds_witness :
    ((CommandParser.patterns.all fun ctp => ctp.2.all fun p =>
        (reSearch p (pyLowerL (pyStripL "zzz".toList))).isNone) = true)
    ∧ CommandParser.parse "zzz"
        = { command_type := .unknown, parameters := [], confidence := 0,
            original_text := (pyLowerL (pyStripL "zzz".toList)).asString } :=
  ⟨by decide, (c3_parse_total_bounds "zzz").2 (by decide)⟩

/-- C5: the validation-level thresholds of `validate_command` — no
confidence-threshold error at LOW; at MEDIUM the threshold error is
recorded exactly when the penalty-adjusted confidence is below `0.5`; at
HIGH exactly when it is below `0.7`; and `is_valid` holds iff the error
list is empty and the adjusted confidence is at least `0.3`. -/
theorem c5_confidence_thresholds (pc : ParsedCommand) (lvl : ValidationLevel) :
    ((CommandValidator.validate_command pc .low).errors
        = (CommandValidator.checksCore pc).1)
    ∧ ((CommandValidator.validate_command pc .medium).errors
        = (CommandValidator.checksCore pc).1
          ++ (if (CommandValidator.checksCore pc).2.2 < 5/10
              then ["Confiança baixa, verifique o comando"] else []))
    ∧ ((CommandValidator.validate_command pc .high).errors
        = (CommandValidator.checksCore pc).1
          ++ (if (CommandValidator.checksCore pc).2.2 < 7/10
              then ["Confiança muito baixa para processamento seguro"] else []))
    ∧ ((CommandValidator.validate_command pc lvl).is_valid = true ↔
        ((CommandValidator.validate_command pc lvl).errors = []
         ∧ 3/10 ≤ (CommandValidator.checksCore pc).2.2)) := by
  refine ⟨by simp [CommandValidator.validate_command, CommandValidator.thresholdErrors],
    rfl, rfl, ?_⟩
  unfold CommandValidator.validate_command
  dsimp only
  rw [Bool.and_eq_true, decide_eq_true_iff, List.isEmpty_iff]


/-! ## Idempotence of sanitization (claim C7)

The proof tracks one invariant: after `remove_html` the text contains no
`<[^>]+>` tag; the later pipeline stages preserve tag-freeness, each removal
stage is the identity on tag-free text, the quote/apostrophe maps are
idempotent character maps, and whitespace collapse plus trim reach a fixed
point after one round. -/

namespace CommandValidator

/-- `normalize_quotes` replaces `"` by `"` — the identity map. -/
theorem quoteChar_eq_self (c : Char) : quoteChar c = c := by
  unfold quoteChar
  split
  · rename_i h
    exact h.symm
  · rfl

theorem map_quoteChar (l : List Char) : l.map quoteChar = l := by
  rw [show quoteChar = id from funext quoteChar_eq_self, List.map_id]

theorem aposChar_lt_iff (c : Char) : (aposChar c = '<') ↔ (c = '<') := by
  unfold aposChar
  split
  · rename_i h
    subst h
    exact ⟨fun h2 => absurd h2 (by decide), fun h2 => absurd h2 (by decide)⟩
  · exact Iff.rfl

theorem aposChar_gt_iff (c : Char) : (aposChar c = '>') ↔ (c = '>') := by
  unfold aposChar
  split
  · rename_i h
    subst h
    exact ⟨fun h2 => absurd h2 (by decide), fun h2 => absurd h2 (by decide)⟩
  · exact Iff.rfl

theorem aposChar_idem (c : Char) : aposChar (aposChar c) = aposChar c := by
  unfold aposChar
  split
  · decide
  · rfl

/-- An ASCII-lowered character equal to `'<'` was `'<'` already. -/
theorem pyCharLower_fix_lt {c : Char} (h : pyCharLower c = '<') : c = '<' := by
  unfold pyCharLower at h
  split at h
  · rename_i hc
    have h1 : 65 ≤ c.toNat := hc.1
    have h2 : c.toNat ≤ 90 := hc.2
    have hv : (c.toNat + 32).isValidChar := by
      left
      omega
    have h3 := congrArg Char.toNat h
    rw [show (Char.ofNat (c.toNat + 32)).toNat = c.toNat + 32 from by
      unfold Char.ofNat
      rw [dif_pos hv]
      rfl] at h3
    have h4 : c.toNat + 32 = 60 := h3
    omega
  · exact h

/-! ### `firstGtIdx` facts -/

theorem firstGtIdx_eq_none_iff (l : List Char) : firstGtIdx l = none ↔ '>' ∉ l := by
  induction l with
  | nil => simp [firstGtIdx]
  | cons c rest ih =>
    unfold firstGtIdx
    split
    · rename_i h
      subst h
      simp
    · rename_i h
      constructor
      · intro h2 h3
        rcases List.mem_cons.mp h3 with h4 | h4
        · exact h h4.symm
        · rcases hg : firstGtIdx rest with _ | i
          · exact (ih.mp hg) h4
          · rw [hg] at h2
            exact absurd h2 (by simp)
      · intro h2
        have h4 : '>' ∉ rest := fun hm => h2 (List.mem_cons_of_mem c hm)
        rw [ih.mpr h4]
        rfl

theorem firstGtIdx_some_mem {l : List Char} {i : Nat} (h : firstGtIdx l = some i) :
    '>' ∈ l := by
  by_contra hmem
  rw [(firstGtIdx_eq_none_iff l).mpr hmem] at h
  exact absurd h (by simp)

theorem firstGtIdx_cons_ne {c : Char} (l : List Char) (hc : ¬ c = '>') :
    firstGtIdx (c :: l) = (firstGtIdx l).map (· + 1) := by
  conv_lhs => unfold firstGtIdx
  rw [if_neg hc]

theorem firstGtIdx_zero {l : List Char} (h : firstGtIdx l = some 0) :
    ∃ t, l = '>' :: t := by
  cases l with
  | nil => exact absurd h (by simp [firstGtIdx])
  | cons c t =>
    unfold firstGtIdx at h
    split at h
    · rename_i hc
      exact ⟨t, by rw [hc]⟩
    · rcases hg : firstGtIdx t with _ | i <;> rw [hg] at h
      · exact absurd h (by simp)
      · simp at h

theorem firstGtIdx_append_some {l l2 : List Char} {i : Nat}
    (h : firstGtIdx l = some i) : firstGtIdx (l ++ l2) = some i := by
  induction l generalizing i with
  | nil => exact absurd h (by simp [firstGtIdx])
  | cons c rest ih =>
    rw [List.cons_append]
    unfold firstGtIdx at h ⊢
    split at h <;> rename_i hc
    · rw [if_pos hc]
      exact h
    · rw [if_neg hc]
      rcases hg : firstGtIdx rest with _ | j <;> rw [hg] at h
      · exact absurd h (by simp)
      · rw [ih hg]
        exact h

theorem firstGtIdx_map_apos (l : List Char) :
    firstGtIdx (l.map aposChar) = firstGtIdx l := by
  induction l with
  | nil => rfl
  | cons c rest ih =>
    rw [List.map_cons]
    unfold firstGtIdx
    by_cases hc : c = '>'
    · rw [if_pos ((aposChar_gt_iff c).mpr hc), if_pos hc]
    · rw [if_neg (fun h2 => hc ((aposChar_gt_iff c).mp h2)), if_neg hc, ih]

/-! ### `matchHtmlAt` facts -/

theorem matchHtmlAt_cons (c : Char) (l : List Char) :
    matchHtmlAt (c :: l)
      = if c = '<' then
          (match firstGtIdx l with
           | some i => if 1 ≤ i then some (i + 2) else none
           | none => none)
        else none := rfl

theorem matchHtmlAt_cons_ne {c : Char} (l : List Char) (hc : ¬ c = '<') :
    matchHtmlAt (c :: l) = none := by
  unfold matchHtmlAt
  dsimp only
  rw [if_neg hc]

theorem matchHtmlAt_no_gt {l : List Char} (h : '>' ∉ l) :
    matchHtmlAt ('<' :: l) = none := by
  unfold matchHtmlAt
  dsimp only
  rw [if_pos rfl, (firstGtIdx_eq_none_iff l).mpr h]

theorem matchHtmlAt_lt_gt (l : List Char) : matchHtmlAt ('<' :: '>' :: l) = none := by
  unfold matchHtmlAt
  dsimp only
  rw [if_pos rfl]
  conv_lhs => unfold firstGtIdx
  rw [if_pos rfl]
  simp

theorem matchHtmlAt_none_cases {l : List Char} (h : matchHtmlAt ('<' :: l) = none) :
    '>' ∉ l ∨ ∃ t, l = '>' :: t := by
  unfold matchHtmlAt at h
  dsimp only at h
  rw [if_pos rfl] at h
  rcases hg : firstGtIdx l with _ | i <;> rw [hg] at h
  · exact Or.inl ((firstGtIdx_eq_none_iff l).mp hg)
  · dsimp only at h
    split at h
    · exact absurd h (by simp)
    · rename_i hi
      have hi0 : i = 0 := by omega
      subst hi0
      exact Or.inr (firstGtIdx_zero hg)

theorem matchHtmlAt_append {l l2 : List Char} {n : Nat} (h : matchHtmlAt l = some n) :
    matchHtmlAt (l ++ l2) = some n := by
  cases l with
  | nil => exact absurd h (by simp [matchHtmlAt])
  | cons c rest =>
    unfold matchHtmlAt at h ⊢
    dsimp only at h ⊢
    rw [List.cons_append]
    dsimp only
    split at h <;> rename_i hc
    · rw [if_pos hc]
      rcases hg : firstGtIdx rest with _ | i <;> rw [hg] at h
      · exact absurd h (by simp)
      · rw [firstGtIdx_append_some hg]
        exact h
    · exact absurd h (by simp)

theorem matchHtmlAt_map_apos (l : List Char) :
    matchHtmlAt (l.map aposChar) = matchHtmlAt l := by
  cases l with
  | nil => rfl
  | cons c rest =>
    rw [List.map_cons, matchHtmlAt_cons, matchHtmlAt_cons, firstGtIdx_map_apos]
    by_cases hc : c = '<'
    · rw [if_pos ((aposChar_lt_iff c).mpr hc), if_pos hc]
    · rw [if_neg (fun h2 => hc ((aposChar_lt_iff c).mp h2)), if_neg hc]

/-- Splitting a successful case-insensitive prefix comparison. -/
theorem ciStarts_cons {x : Char} {xs hay : List Char} (h : ciStarts (x :: xs) hay = true) :
    ∃ c t, hay = c :: t ∧ pyCharLower x = pyCharLower c ∧ ciStarts xs t = true := by
  cases hay with
  | nil => exact absurd h (by simp [ciStarts])
  | cons c t =>
    unfold ciStarts at h
    rw [Bool.and_eq_true, decide_eq_true_iff] at h
    exact ⟨c, t, rfl, h.1, h.2⟩

/-- A `<name[^>]*>.*?</name>` block match begins with a `<[^>]+>` tag match
(the tag name is non-empty and lowers to no `'>'`). -/
theorem matchTagBlockAt_html {name s : List Char} {n : Nat}
    (hne : name ≠ [])
    (hgt : ∀ x ∈ name, pyCharLower x ≠ '>')
    (h : matchTagBlockAt name s = some n) :
    (matchHtmlAt s).isSome = true := by
  unfold matchTagBlockAt at h
  split at h
  case isFalse => exact absurd h (by simp)
  rename_i hci
  rcases ciStarts_cons hci with ⟨c, s2, hs, hlc, hci2⟩
  have hc : c = '<' := pyCharLower_fix_lt ((by decide : pyCharLower '<' = '<') ▸ hlc.symm)
  subst hs
  subst hc
  split at h
  · exact absurd h (by simp)
  · rename_i i2 hg2
    have hmem : '>' ∈ s2 := by
      have h1 : '>' ∈ List.drop (name.length + 1) ('<' :: s2) := firstGtIdx_some_mem hg2
      rw [List.drop_succ_cons] at h1
      exact List.mem_of_mem_drop h1
    cases name with
    | nil => exact absurd rfl hne
    | cons x nt =>
      rcases ciStarts_cons hci2 with ⟨c2, s3, hs2, hlc2, _⟩
      have hc2 : ¬ c2 = '>' := by
        intro he
        subst he
        exact hgt x (List.mem_cons_self x nt) (by rw [hlc2]; decide)
      subst hs2
      have hmem3 : '>' ∈ s3 := by
        rcases List.mem_cons.mp hmem with h4 | h4
        · exact absurd h4.symm hc2
        · exact h4
      unfold matchHtmlAt
      dsimp only
      rw [if_pos rfl, firstGtIdx_cons_ne s3 hc2]
      rcases hg3 : firstGtIdx s3 with _ | j
      · exact absurd ((firstGtIdx_eq_none_iff s3).mp hg3) (by simp [hmem3])
      · simp

/-! ### Tag-freeness and its preservation along the pipeline -/

/-- Some `<[^>]+>` tag occurs in the text (at any position). -/
def hasTag : List Char → Bool
  | [] => false
  | c :: rest => (matchHtmlAt (c :: rest)).isSome || hasTag rest

theorem hasTag_cons_false {c : Char} {l : List Char} (h : hasTag (c :: l) = false) :
    matchHtmlAt (c :: l) = none ∧ hasTag l = false := by
  unfold hasTag at h
  rw [Bool.or_eq_false_iff] at h
  exact ⟨Option.not_isSome_iff_eq_none.mp (by simp [h.1]), h.2⟩

theorem mem_removeHtml {a : Char} {l : List Char} (h : a ∈ removeHtml l) : a ∈ l := by
  induction l using removeHtml.induct with
  | case1 => simpa [removeHtml] using h
  | case2 c rest n hm ih =>
    rw [removeHtml, hm] at h
    exact List.mem_of_mem_drop (ih h)
  | case3 c rest hm ih =>
    rw [removeHtml, hm] at h
    rcases List.mem_cons.mp h with h2 | h2
    · exact List.mem_cons.mpr (Or.inl h2)
    · exact List.mem_cons_of_mem c (ih h2)

theorem mem_dropWhile {p : Char → Bool} {a : Char} {l : List Char}
    (h : a ∈ l.dropWhile p) : a ∈ l := by
  induction l with
  | nil => simpa using h
  | cons c rest ih =>
    rw [List.dropWhile] at h
    split at h
    · exact List.mem_cons_of_mem c (ih h)
    · exact h

theorem mem_collapseWs {a : Char} {l : List Char} (h : a ∈ collapseWs l) :
    a ∈ l ∨ a = ' ' := by
  induction l using collapseWs.induct with
  | case1 => simpa [collapseWs] using h
  | case2 c rest hc ih =>
    rw [collapseWs, if_pos hc] at h
    rcases List.mem_cons.mp h with h2 | h2
    · exact Or.inr h2
    · rcases ih h2 with h3 | h3
      · exact Or.inl (List.mem_cons_of_mem c (mem_dropWhile h3))
      · exact Or.inr h3
  | case3 c rest hc ih =>
    rw [collapseWs, if_neg hc] at h
    rcases List.mem_cons.mp h with h2 | h2
    · exact Or.inl (List.mem_cons.mpr (Or.inl h2))
    · rcases ih h2 with h3 | h3
      · exact Or.inl (List.mem_cons_of_mem c h3)
      · exact Or.inr h3

theorem mem_dropTrailWs {a : Char} {l : List Char} (h : a ∈ dropTrailWs l) : a ∈ l := by
  unfold dropTrailWs at h
  rw [List.mem_reverse] at h
  exact List.mem_reverse.mp (mem_dropWhile h)

theorem mem_pyStripL {a : Char} {l : List Char} (h : a ∈ pyStripL l) : a ∈ l := by
  unfold pyStripL at h
  exact mem_dropWhile (mem_dropTrailWs h)

theorem hasTag_dropWhile (p : Char → Bool) {l : List Char} (h : hasTag l = false) :
    hasTag (l.dropWhile p) = false := by
  induction l with
  | nil => simpa using h
  | cons c rest ih =>
    rw [List.dropWhile]
    split
    · exact ih (hasTag_cons_false h).2
    · exact h

theorem hasTag_append_left {l l2 : List Char} (h : hasTag l = true) :
    hasTag (l ++ l2) = true := by
  induction l with
  | nil => simp [hasTag] at h
  | cons c rest ih =>
    rw [List.cons_append]
    unfold hasTag at h ⊢
    rw [Bool.or_eq_true] at h ⊢
    rcases h with h2 | h2
    · rcases ho : matchHtmlAt (c :: rest) with _ | n
      · rw [ho] at h2
        exact absurd h2 (by simp)
      · rw [← List.cons_append]
        exact Or.inl (by rw [matchHtmlAt_append ho]; rfl)
    · exact Or.inr (ih h2)

/-- The strip of trailing whitespace is an initial segment. -/
theorem dropTrailWs_decomp (l : List Char) :
    l = dropTrailWs l ++ (l.reverse.takeWhile isPySpace).reverse := by
  unfold dropTrailWs
  calc l = l.reverse.reverse := (List.reverse_reverse l).symm
    _ = (l.reverse.takeWhile isPySpace ++ l.reverse.dropWhile isPySpace).reverse := by
        rw [List.takeWhile_append_dropWhile]
    _ = (l.reverse.dropWhile isPySpace).reverse
        ++ (l.reverse.takeWhile isPySpace).reverse := by rw [List.reverse_append]

theorem hasTag_dropTrailWs {l : List Char} (h : hasTag l = false) :
    hasTag (dropTrailWs l) = false := by
  by_contra hc
  rw [Bool.not_eq_false] at hc
  have h2 := @hasTag_append_left (dropTrailWs l)
    ((l.reverse.takeWhile isPySpace).reverse) hc
  rw [← dropTrailWs_decomp l] at h2
  rw [h2] at h
  exact absurd h (by simp)

theorem hasTag_pyStripL {l : List Char} (h : hasTag l = false) :
    hasTag (pyStripL l) = false := by
  unfold pyStripL
  exact hasTag_dropTrailWs (hasTag_dropWhile isPySpace h)

theorem hasTag_map_apos (l : List Char) : hasTag (l.map aposChar) = hasTag l := by
  induction l with
  | nil => rfl
  | cons c rest ih =>
    rw [List.map_cons]
    unfold hasTag
    rw [← List.map_cons, matchHtmlAt_map_apos, ih]

/-- After `remove_html` no `<[^>]+>` tag remains. -/
theorem hasTag_removeHtml (l : List Char) : hasTag (removeHtml l) = false := by
  induction l using removeHtml.induct with
  | case1 => rw [removeHtml]; rfl
  | case2 c rest n hm ih => rw [removeHtml, hm]; exact ih
  | case3 c rest hm ih =>
    rw [removeHtml, hm]
    unfold hasTag
    rw [Bool.or_eq_false_iff]
    refine ⟨?_, ih⟩
    by_cases hc : c = '<'
    · subst hc
      rcases matchHtmlAt_none_cases hm with h2 | ⟨t, h2⟩
      · have h3 : '>' ∉ removeHtml rest := fun hmem => h2 (mem_removeHtml hmem)
        rw [matchHtmlAt_no_gt h3]
        rfl
      · subst h2
        have h4 : matchHtmlAt ('>' :: t) = none := matchHtmlAt_cons_ne t (by decide)
        rw [removeHtml, h4, matchHtmlAt_lt_gt]
        rfl
    · rw [matchHtmlAt_cons_ne _ hc]
      rfl

/-- `collapseWs` preserves tag-freeness. -/
theorem hasTag_collapseWs {l : List Char} (h : hasTag l = false) :
    hasTag (collapseWs l) = false := by
  induction l using collapseWs.induct with
  | case1 => simpa [collapseWs] using h
  | case2 c rest hc ih =>
    rw [collapseWs, if_pos hc]
    unfold hasTag
    rw [Bool.or_eq_false_iff]
    refine ⟨?_, ih (hasTag_dropWhile isPySpace (hasTag_cons_false h).2)⟩
    rw [matchHtmlAt_cons_ne _ (by decide)]
    rfl
  | case3 c rest hc ih =>
    rw [collapseWs, if_neg hc]
    unfold hasTag
    rw [Bool.or_eq_false_iff]
    refine ⟨?_, ih (hasTag_cons_false h).2⟩
    by_cases hlt : c = '<'
    · subst hlt
      rcases matchHtmlAt_none_cases (hasTag_cons_false h).1 with h2 | ⟨t, h2⟩
      · have h3 : '>' ∉ collapseWs rest := fun hmem => by
          rcases mem_collapseWs hmem with h4 | h4
          · exact h2 h4
          · exact absurd h4 (by decide)
        rw [matchHtmlAt_no_gt h3]
        rfl
      · subst h2
        rw [collapseWs, if_neg (by decide), matchHtmlAt_lt_gt]
        rfl
    · rw [matchHtmlAt_cons_ne _ hlt]
      rfl

/-- `remove_html` is the identity on tag-free text. -/
theorem removeHtml_id {l : List Char} (h : hasTag l = false) : removeHtml l = l := by
  induction l using removeHtml.induct with
  | case1 => rw [removeHtml]
  | case2 c rest n hm ih =>
    have h2 := (hasTag_cons_false h).1
    rw [hm] at h2
    exact absurd h2 (by simp)
  | case3 c rest hm ih =>
    rw [removeHtml, hm, ih (hasTag_cons_false h).2]

/-- `remove_scripts` / `remove_style` are the identity on tag-free text:
their match would begin with a `<[^>]+>` tag. -/
theorem removeTagBlocks_id {name : List Char} (hne : name ≠ [])
    (hgt : ∀ x ∈ name, pyCharLower x ≠ '>') :
    ∀ {l : List Char}, hasTag l = false → removeTagBlocks name l = l := by
  intro l
  induction l using removeTagBlocks.induct name with
  | case1 => intro _; rw [removeTagBlocks]
  | case2 c rest n hm ih =>
    intro h
    have h2 := (hasTag_cons_false h).1
    have h3 := matchTagBlockAt_html hne hgt hm
    rw [h2] at h3
    exact absurd h3 (by simp)
  | case3 c rest hm ih =>
    intro h
    rw [removeTagBlocks, hm, ih (hasTag_cons_false h).2]

/-! ### Whitespace normal form: `collapseWs` then trim is a fixed point -/

/-- Every whitespace character is a plain space. -/
def wsOk (l : List Char) : Bool := l.all fun c => !isPySpace c || c = ' '

/-- No two adjacent whitespace characters. -/
def noAdjWs : List Char → Bool
  | c1 :: c2 :: rest => (!(isPySpace c1 && isPySpace c2)) && noAdjWs (c2 :: rest)
  | _ => true

theorem noAdjWs_two (c1 c2 : Char) (l : List Char) :
    noAdjWs (c1 :: c2 :: l)
      = ((!(isPySpace c1 && isPySpace c2)) && noAdjWs (c2 :: l)) := rfl

theorem noAdjWs_tail {c : Char} {l : List Char} (h : noAdjWs (c :: l) = true) :
    noAdjWs l = true := by
  cases l with
  | nil => rfl
  | cons c2 t =>
    rw [noAdjWs_two, Bool.and_eq_true] at h
    exact h.2

theorem noAdjWs_append_right {a b : List Char} (h : noAdjWs (a ++ b) = true) :
    noAdjWs b = true := by
  induction a with
  | nil => exact h
  | cons c a2 ih =>
    rw [List.cons_append] at h
    exact ih (noAdjWs_tail h)

theorem noAdjWs_append_left {a b : List Char} (h : noAdjWs (a ++ b) = true) :
    noAdjWs a = true := by
  induction a with
  | nil => rfl
  | cons c a2 ih =>
    cases a2 with
    | nil => rfl
    | cons c2 a3 =>
      rw [List.cons_append, List.cons_append, noAdjWs_two, Bool.and_eq_true] at h
      rw [noAdjWs_two, Bool.and_eq_true]
      refine ⟨h.1, ?_⟩
      exact ih (by rw [List.cons_append]; exact h.2)

theorem noAdjWs_dropWhile (p : Char → Bool) {l : List Char} (h : noAdjWs l = true) :
    noAdjWs (l.dropWhile p) = true :=
  @noAdjWs_append_right (l.takeWhile p) (l.dropWhile p)
    (by rw [List.takeWhile_append_dropWhile]; exact h)

theorem noAdjWs_dropTrailWs {l : List Char} (h : noAdjWs l = true) :
    noAdjWs (dropTrailWs l) = true :=
  noAdjWs_append_left (by rw [← dropTrailWs_decomp l]; exact h)

theorem wsOk_of_sub {l m : List Char} (hsub : ∀ a ∈ m, a ∈ l) (h : wsOk l = true) :
    wsOk m = true := by
  unfold wsOk at h ⊢
  rw [List.all_eq_true] at h ⊢
  exact fun a ha => h a (hsub a ha)

theorem dropWhile_head_false {p : Char → Bool} {l : List Char} {c : Char} {t : List Char}
    (h : l.dropWhile p = c :: t) : p c = false := by
  induction l with
  | nil => simp at h
  | cons a l2 ih =>
    rw [List.dropWhile_cons] at h
    split at h
    · exact ih h
    · rename_i ha
      have hac : a = c := (List.cons.injEq a l2 c t ▸ h).1
      subst hac
      simpa using ha

theorem dropWhile_idem (p : Char → Bool) (l : List Char) :
    (l.dropWhile p).dropWhile p = l.dropWhile p := by
  cases hd : l.dropWhile p with
  | nil => rfl
  | cons c t =>
    rw [List.dropWhile_cons, dropWhile_head_false hd]
    simp

theorem dropTrailWs_idem (l : List Char) : dropTrailWs (dropTrailWs l) = dropTrailWs l := by
  unfold dropTrailWs
  rw [List.reverse_reverse, dropWhile_idem]

theorem dropWhile_dropTrailWs {l : List Char} (h : l.dropWhile isPySpace = l) :
    (dropTrailWs l).dropWhile isPySpace = dropTrailWs l := by
  cases hd : dropTrailWs l with
  | nil => rfl
  | cons c t =>
    have hdec := dropTrailWs_decomp l
    rw [hd] at hdec
    have hc : isPySpace c = false := by
      by_contra hcc
      rw [Bool.not_eq_false] at hcc
      have h2 : l.dropWhile isPySpace
          = ((t ++ (l.reverse.takeWhile isPySpace).reverse).dropWhile isPySpace) := by
        conv_lhs => rw [hdec]
        rw [List.cons_append, List.dropWhile_cons, if_pos hcc]
      rw [h] at h2
      have hlen1 : l.length
          = ((t ++ (l.reverse.takeWhile isPySpace).reverse).dropWhile isPySpace).length :=
        congrArg List.length h2
      have hlen2 : l.length = (t ++ (l.reverse.takeWhile isPySpace).reverse).length + 1 := by
        conv_lhs => rw [hdec]
        rw [List.cons_append, List.length_cons]
      have hle := dropWhileLenLe isPySpace (t ++ (l.reverse.takeWhile isPySpace).reverse)
      omega
    rw [List.dropWhile_cons, hc]
    simp

theorem pyStripL_idem (l : List Char) : pyStripL (pyStripL l) = pyStripL l := by
  unfold pyStripL
  rw [dropWhile_dropTrailWs (dropWhile_idem isPySpace l), dropTrailWs_idem]

theorem collapseWs_wsOk (l : List Char) : wsOk (collapseWs l) = true := by
  induction l using collapseWs.induct with
  | case1 => rw [collapseWs]; rfl
  | case2 c rest hc ih =>
    rw [collapseWs, if_pos hc]
    unfold wsOk at ih ⊢
    rw [List.all_cons, ih]
    decide
  | case3 c rest hc ih =>
    rw [collapseWs, if_neg hc]
    unfold wsOk at ih ⊢
    rw [List.all_cons, ih, Bool.and_true]
    rw [Bool.not_eq_true] at hc
    rw [hc]
    rfl

/-- The head of `collapseWs (l.dropWhile isPySpace)` is never whitespace. -/
theorem collapseWs_dropWhile_head (l : List Char) :
    collapseWs (l.dropWhile isPySpace) = []
    ∨ ∃ c t, collapseWs (l.dropWhile isPySpace) = c :: t ∧ isPySpace c = false := by
  cases hd : l.dropWhile isPySpace with
  | nil => exact Or.inl (by rw [collapseWs])
  | cons c t =>
    have hc := dropWhile_head_false hd
    exact Or.inr ⟨c, collapseWs t, by rw [collapseWs, if_neg (by rw [hc]; exact fun h2 => by simpa using h2)], hc⟩

theorem collapseWs_noAdjWs (l : List Char) : noAdjWs (collapseWs l) = true := by
  induction l using collapseWs.induct with
  | case1 => rw [collapseWs]; rfl
  | case2 c rest hc ih =>
    rw [collapseWs, if_pos hc]
    rcases collapseWs_dropWhile_head rest with hd | ⟨c2, t, hd, hc2⟩
    · rw [hd]
      rfl
    · rw [hd] at ih ⊢
      rw [noAdjWs_two, Bool.and_eq_true]
      refine ⟨?_, ih⟩
      rw [hc2]
      rfl
  | case3 c rest hc ih =>
    rw [collapseWs, if_neg hc]
    cases hd : collapseWs rest with
    | nil => rfl
    | cons c2 t =>
      rw [hd] at ih
      rw [noAdjWs_two, Bool.and_eq_true]
      refine ⟨?_, ih⟩
      rw [Bool.not_eq_true] at hc
      rw [hc]
      rfl

theorem collapseWs_id : ∀ {l : List Char}, wsOk l = true → noAdjWs l = true →
    collapseWs l = l := by
  intro l
  induction l with
  | nil => intro _ _; rw [collapseWs]
  | cons c rest ih =>
    intro h1 h2
    unfold wsOk at h1
    rw [List.all_cons, Bool.and_eq_true] at h1
    by_cases hc : isPySpace c = true
    · have hcsp : c = ' ' := by
        have h3 := h1.1
        rw [hc] at h3
        simpa using h3
      have hrest : rest.dropWhile isPySpace = rest := by
        cases rest with
        | nil => rfl
        | cons c2 t =>
          have h4 := h2
          rw [noAdjWs_two, Bool.and_eq_true] at h4
          have h5 : isPySpace c2 = false := by
            have h6 := h4.1
            rw [hc] at h6
            simpa using h6
          rw [List.dropWhile_cons, h5]
          simp
      rw [collapseWs, if_pos hc, hrest, ih h1.2 (noAdjWs_tail h2), hcsp]
    · rw [collapseWs, if_neg hc, ih h1.2 (noAdjWs_tail h2)]

/-- One `collapse`-then-trim round is a `collapseWs` fixed point. -/
theorem collapseWs_strip_fix (z : List Char) :
    collapseWs (pyStripL (collapseWs z)) = pyStripL (collapseWs z) := by
  apply collapseWs_id
  · exact wsOk_of_sub (fun a ha => mem_pyStripL ha) (collapseWs_wsOk z)
  · unfold pyStripL
    exact noAdjWs_dropTrailWs (noAdjWs_dropWhile _ (collapseWs_noAdjWs z))

theorem map_apos_fixed : ∀ {l : List Char}, (∀ a ∈ l, aposChar a = a) →
    l.map aposChar = l := by
  intro l
  induction l with
  | nil => intro _; rfl
  | cons c rest ih =>
    intro h
    rw [List.map_cons, h c (List.mem_cons_self c rest),
      ih fun a ha => h a (List.mem_cons_of_mem c ha)]

/-- Every character of a sanitized text is a fixed point of the
apostrophe-normalization map. -/
theorem sanitizeL_chars_fixed (l : List Char) :
    ∀ a ∈ sanitizeL l, aposChar a = a := by
  intro a ha
  unfold sanitizeL at ha
  have h1 := mem_pyStripL ha
  rcases mem_collapseWs h1 with h2 | h2
  · rcases List.mem_map.mp h2 with ⟨b, _, hb⟩
    rw [← hb]
    exact aposChar_idem b
  · rw [h2]
    decide

theorem sanitizeL_idem (l : List Char) : sanitizeL (sanitizeL l) = sanitizeL l := by
  have hdef : sanitizeL l
      = pyStripL (collapseWs (((removeHtml (removeTagBlocks "style".toList
          (removeTagBlocks "script".toList l))).map quoteChar).map aposChar)) := rfl
  have htag1 : hasTag (sanitizeL l) = false := by
    rw [hdef]
    apply hasTag_pyStripL
    apply hasTag_collapseWs
    rw [map_quoteChar, hasTag_map_apos]
    exact hasTag_removeHtml _
  have hcoll : collapseWs (sanitizeL l) = sanitizeL l := by
    rw [hdef]
    exact collapseWs_strip_fix _
  have hstrip : pyStripL (sanitizeL l) = sanitizeL l := by
    rw [hdef, pyStripL_idem]
  calc sanitizeL (sanitizeL l)
      = pyStripL (collapseWs (((removeHtml (removeTagBlocks "style".toList
          (removeTagBlocks "script".toList (sanitizeL l)))).map quoteChar).map aposChar)) :=
        rfl
    _ = sanitizeL l := by
        rw [removeTagBlocks_id (by decide) (by decide) htag1,
          removeTagBlocks_id (by decide) (by decide) htag1,
          removeHtml_id htag1, map_quoteChar,
          map_apos_fixed (sanitizeL_chars_fixed l), hcoll, hstrip]

end CommandValidator

/-- C7: `_sanitize_command` is idempotent — a second sanitization pass
(script/style/HTML removal, quote and apostrophe normalization, whitespace
collapse and trim) leaves the output of the first pass unchanged. -/
theorem c7_sanitize_idempotent (x : String) :
    CommandValidator.sanitize_command (CommandValidator.sanitize_command x)
      = CommandValidator.sanitize_command x := by
  unfold CommandValidator.sanitize_command
  rw [show ((CommandValidator.sanitizeL x.toList).asString).toList
      = CommandValidator.sanitizeL x.toList from rfl]
  rw [CommandValidator.sanitizeL_idem]
